import Mathlib

/-!
Shallow embedding of `habla.py`, a line-oriented marker-dispatch interpreter
for a Pilates narration script.  Strings are modelled as `List Char` (wrapped
in `String` at the interfaces), regular-expression searches are implemented
directly with their leftmost-match semantics, and the side effects of the
handlers (speech-synthesis calls, console prints, sleeps, image-viewer
invocations) are modelled as a trace of `Event`s.  Wall-clock time is
modelled by a nonnegative number of elapsed seconds passed explicitly
(the Python code reads `time.time()` against the module-level `start_time`).
-/

namespace Habla

/-- An observable side effect of the interpreter:
`say t` is an invocation of the macOS speech service (`subprocess.run(["say", t])`),
`print t` a console message, `sleep n` a `time.sleep(n)` call, and
`openImg p` an image-viewer invocation (`subprocess.run(["open", p])`). -/
inductive Event
  | say (text : String)
  | print (text : String)
  | sleep (seconds : Int)
  | openImg (path : String)
  deriving DecidableEq, Repr

/-- Python whitespace, as recognised by `str.strip()` and `\s`
(restricted to the ASCII whitespace characters). -/
def isPySpace (c : Char) : Bool :=
  c == ' ' || c == '\t' || c == '\n' || c == '\r' || c == '\x0b' || c == '\x0c'

/-- Python `str.strip()`: drop whitespace at both ends. -/
def strip (l : List Char) : List Char :=
  ((l.dropWhile isPySpace).reverse.dropWhile isPySpace).reverse

/-- If `pat` is a literal prefix of `s`, return the rest of `s`. -/
def afterLit : List Char → List Char → Option (List Char)
  | [], s => some s
  | _ :: _, [] => none
  | c :: p, d :: s => if c = d then afterLit p s else none

/-- Value of a decimal digit string (digits are ASCII `0`-`9`). -/
def digitsToNat (l : List Char) : Nat :=
  l.foldl (fun a c => 10 * a + (c.toNat - '0'.toNat)) 0

/-- The nonempty all-digit check used by Python `int()` after sign handling. -/
def digitsOnly (l : List Char) : Option Nat :=
  if l ≠ [] ∧ l.all Char.isDigit then some (digitsToNat l) else none

/-- Python `int(s)`: strip whitespace, optional sign, then a nonempty run of
decimal digits; `none` models the `ValueError` raised otherwise
(digit-group underscores, a rarely used Python extension, are not modelled). -/
def pyInt (s : String) : Option Int :=
  match strip s.data with
  | [] => none
  | c :: r =>
    if c = '+' then (digitsOnly r).map Int.ofNat
    else if c = '-' then (digitsOnly r).map (fun n => -(n : Int))
    else (digitsOnly (c :: r)).map Int.ofNat

/-- The pattern `re.search(r"\[PAUSE:(\d+)\](.*)", part)` tried at one position:
the literal `[PAUSE:`, a maximal nonempty digit run, the closing `]`,
then `(.*)` captures the rest of the segment up to a newline
(`.` does not match `\n`).  Returns `(group 1, group 2)`. -/
def pauseAt (s : List Char) : Option (List Char × List Char) :=
  match afterLit "[PAUSE:".data s with
  | none => none
  | some r =>
    let ds := r.takeWhile Char.isDigit
    if ds = [] then none
    else
      match r.dropWhile Char.isDigit with
      | ']' :: rest => some (ds, rest.takeWhile (· ≠ '\n'))
      | _ => none

/-- The `re.search` semantics for the pause pattern: leftmost position that matches. -/
def searchPause : List Char → Option (List Char × List Char)
  | [] => none
  | c :: t =>
    match pauseAt (c :: t) with
    | some x => some x
    | none => searchPause t

/-- The pattern `re.search(r"\[IMAGEN:\s*([^\]]+)\]", part)` tried at one position.
The match succeeds when the literal `[IMAGEN:` is followed by a nonempty run
of non-`]` characters and then `]`; the returned value is that full run
(`\s*` and group 1 together).  Group 1 itself is recovered by
`imagenGroup1` below. -/
def imagenAt (s : List Char) : Option (List Char) :=
  match afterLit "[IMAGEN:".data s with
  | none => none
  | some r =>
    let content := r.takeWhile (· ≠ ']')
    if content = [] then none
    else if r.dropWhile (· ≠ ']') = [] then none
    else some content

/-- Group 1 of the image pattern: `\s*` greedily eats the leading whitespace of
the bracket content and `([^\]]+)` captures the rest; when the content is all
whitespace the engine backtracks one character so that group 1 is the last
whitespace character. -/
def imagenGroup1 (content : List Char) : List Char :=
  if content.dropWhile isPySpace = [] then content.drop (content.length - 1)
  else content.dropWhile isPySpace

/-- Leftmost image-pattern match; also returns the text before `match.start(0)`
(the characters scanned before the matching position). -/
def searchImagenAux (acc : List Char) : List Char → Option (List Char × List Char)
  | [] => none
  | c :: t =>
    match imagenAt (c :: t) with
    | some content => some (acc.reverse, content)
    | none => searchImagenAux (c :: acc) t

/-- The `re.search` semantics for the image pattern: `some (before, content)` where `before`
is the text preceding the match and `content` the bracket payload. -/
def searchImagen (s : List Char) : Option (List Char × List Char) :=
  searchImagenAux [] s

/-- Literal substring search, as `re.search` on a pattern with no operators. -/
def hasLit (pat : List Char) : List Char → Bool
  | [] => (afterLit pat []).isSome
  | c :: t => (afterLit pat (c :: t)).isSome || hasLit pat t

/-- The pattern `re.search(r"\[EJERCICIO:\s*(\d+)\]", part)` tried at one position:
the literal `[EJERCICIO:`, a whitespace run, a maximal nonempty digit run
(group 1), then `]`. -/
def ejercicioAt (s : List Char) : Option (List Char) :=
  match afterLit "[EJERCICIO:".data s with
  | none => none
  | some r =>
    let r1 := r.dropWhile isPySpace
    let ds := r1.takeWhile Char.isDigit
    if ds = [] then none
    else
      match r1.dropWhile Char.isDigit with
      | ']' :: _ => some ds
      | _ => none

/-- Leftmost match of the exercise pattern. -/
def searchEjercicio : List Char → Option (List Char)
  | [] => none
  | c :: t =>
    match ejercicioAt (c :: t) with
    | some ds => some ds
    | none => searchEjercicio t

/-- The function `speak`: a guarded call to the speech service; blank input
(empty or whitespace-only) returns without invoking the service. -/
def speak (t : String) : List Event :=
  if strip t.data = [] then [] else [.say t]

/-- The waiting-notice f-string of the pause handler. -/
def esperandoMsg (n : Int) : String := s!"Esperando {n} segundos..."

/-- The spoken seconds-notice f-string of the pause handler. -/
def segundosMsg (n : Int) : String := s!"{n} segundos"

/-- The invalid-duration error f-string of the pause handler. -/
def errorPausaMsg (d : String) : String := s!"Error: Duración de pausa inválida \x27{d}\x27"

/-- The image-opening notice f-string of the image handler. -/
def abriendoMsg (img : String) : String := s!"Abriendo la imagen {img}..."

/-- The f-string of `sintetizar_tiempo`. -/
def tiempoMsg (m : Nat) : String :=
  s!"Han transcurrido {m} minutos desde el inicio de la ejecución"

/-- The announcement f-string of the exercise handler. -/
def ejercicioMsg (n : String) : String := s!"Ejercicio {n}"

/-- The handler `manejar_pausa`: speak the accompanying text if truthy, then convert the
duration; on success print the waiting notice, speak the `N segundos` notice
and sleep; on a `ValueError` print the invalid-duration error. -/
def manejar_pausa (d t : String) : List Event :=
  (if t ≠ "" then speak t else []) ++
    match pyInt d with
    | some n => [.print (esperandoMsg n)] ++ speak (segundosMsg n) ++ [.sleep n]
    | none => [.print (errorPausaMsg d)]

/-- The handler `manejar_imagen`: speak the accompanying text if truthy, print the notice,
invoke the image viewer. -/
def manejar_imagen (img t : String) : List Event :=
  (if t ≠ "" then speak t else []) ++ [.print (abriendoMsg img), .openImg img]

/-- The handler `sintetizar_tiempo`: truncate the elapsed seconds to whole minutes,
print and speak the fixed Spanish template. -/
def sintetizar_tiempo (elapsedSeconds : Nat) : List Event :=
  let m := elapsedSeconds / 60
  [.print (tiempoMsg m)] ++ speak (tiempoMsg m)

/-- The handler `manejar_ejercicio`: print and speak the fixed template. -/
def manejar_ejercicio (n : String) : List Event :=
  [.print (ejercicioMsg n)] ++ speak (ejercicioMsg n)

/-- The classification a segment receives from the dispatcher in `main`. -/
inductive Directive
  | pause (duration : String) (trailing : String)
  | image (path : String) (leading : String)
  | tiempo
  | ejercicio (number : String)
  | plain (text : String)
  deriving DecidableEq, Repr

/-- The dispatcher of `main`, as a classifier: the four patterns are tried in
the fixed order pause, image, time, exercise, each `continue` making the
checks mutually exclusive; an unmatched segment is plain text.  Payload
extraction follows the code: the pause trailing text is `group(2).strip()`,
the image path `group(1).strip()` with the text before `match.start(0)`
stripped as leading text, the exercise number `group(1).strip()`. -/
def classify (part : String) : Directive :=
  match searchPause part.data with
  | some (d, rest) => .pause (String.mk d) (String.mk (strip rest))
  | none =>
    match searchImagen part.data with
    | some (bef, content) =>
      .image (String.mk (strip (imagenGroup1 content))) (String.mk (strip bef))
    | none =>
      if hasLit "[TIEMPO]".data part.data then .tiempo
      else
        match searchEjercicio part.data with
        | some ds => .ejercicio (String.mk (strip ds))
        | none => .plain part

/-- The handler invoked for each classification. -/
def runDirective (elapsed : Nat) : Directive → List Event
  | .pause d t => manejar_pausa d t
  | .image p t => manejar_imagen p t
  | .tiempo => sintetizar_tiempo elapsed
  | .ejercicio n => manejar_ejercicio n
  | .plain t => speak t

/-- One segment of the inner loop of `main`: classify and run the handler. -/
def processPart (elapsed : Nat) (part : String) : List Event :=
  runDirective elapsed (classify part)

/-- Python `str.split` on the slash character: all pieces, empties kept. -/
def splitOnSlash : List Char → List (List Char)
  | [] => [[]]
  | c :: t =>
    if c = '/' then [] :: splitOnSlash t
    else
      match splitOnSlash t with
      | [] => [[c]]
      | r :: rs => (c :: r) :: rs

/-- The segmentation of a line: split on `/`, strip each piece,
discard the blank ones. -/
def segments (l : List Char) : List (List Char) :=
  ((splitOnSlash l).map strip).filter (fun x => x ≠ [])

/-- Seconds of wall-clock time a trace is known to consume
(sleeps; speech and subprocess time are modelled as instantaneous). -/
def sleepTime (evs : List Event) : Nat :=
  (evs.map fun e => match e with | .sleep n => n.toNat | _ => 0).sum

/-- The inner loop of `main` over the `/`-split pieces of one line, threading
the elapsed-seconds clock through the sleeps. -/
def processParts (t : Nat) : List (List Char) → List Event × Nat
  | [] => ([], t)
  | p :: ps =>
    let part := strip p
    if part = [] then processParts t ps
    else
      let evs := processPart t (String.mk part)
      let (rest, t2) := processParts (t + sleepTime evs) ps
      (evs ++ rest, t2)

/-- One iteration of the line loop of `main`: strip the line, skip it if
blank, otherwise split on `/` and process each piece. -/
def processLine (t : Nat) (line : List Char) : List Event × Nat :=
  let lc := strip line
  if lc = [] then ([], t) else processParts t (splitOnSlash lc)

/-- The line loop of `main` over the whole file. -/
def processLines (t : Nat) : List (List Char) → List Event × Nat
  | [] => ([], t)
  | line :: ls =>
    let (evs, t1) := processLine t line
    let (rest, t2) := processLines t1 ls
    (evs ++ rest, t2)

/-- The file-not-found error f-string of the processing routine. -/
def errorArchivoMsg (f : String) : String :=
  s!"Error: El archivo de entrada \x27{f}\x27 no fue encontrado al intentar procesarlo."

/-- The routine `main(input_filename)`: the filesystem is modelled as a partial map from
filenames to the lines of the file (`none` = `os.path.exists` is false).
A missing file prints the error and returns before any processing; otherwise
the banner is printed and every line is processed. -/
def main (fs : String → Option (List (List Char))) (input_filename : String)
    (t0 : Nat) : List Event :=
  match fs input_filename with
  | none => [.print (errorArchivoMsg input_filename)]
  | some lines =>
    [.print s!"Procesando el archivo de Pilates: {input_filename}",
     .print "--------------------------------------------------------------------"] ++
      (processLines t0 lines).1

/-! ### Helper lemmas about `strip` -/

theorem dropWhile_dropWhile (p : Char → Bool) (l : List Char) :
    (l.dropWhile p).dropWhile p = l.dropWhile p := by
  induction l with
  | nil => rfl
  | cons c t ih =>
    by_cases h : p c
    · simp [List.dropWhile_cons, h, ih]
    · simp [List.dropWhile_cons, h]

theorem dropWhile_eq_self_of_forall (p : Char → Bool) (l : List Char)
    (h : ∀ c ∈ l, p c = false) : l.dropWhile p = l := by
  cases l with
  | nil => rfl
  | cons c t => exact List.dropWhile_cons_of_neg (by simp [h c (by simp)])

theorem strip_of_forall_not_space {l : List Char}
    (h : ∀ c ∈ l, isPySpace c = false) : strip l = l := by
  unfold strip
  rw [dropWhile_eq_self_of_forall _ _ h,
      dropWhile_eq_self_of_forall _ _ (fun c hc => h c (List.mem_reverse.mp hc)),
      List.reverse_reverse]

theorem strip_of_forall_space {l : List Char}
    (h : ∀ c ∈ l, isPySpace c = true) : strip l = [] := by
  unfold strip
  rw [List.dropWhile_eq_nil_iff.mpr h]
  rfl

theorem mem_of_mem_strip {c : Char} {l : List Char} (h : c ∈ strip l) : c ∈ l := by
  unfold strip at h
  rw [List.mem_reverse] at h
  have h1 := (List.dropWhile_suffix isPySpace).subset h
  rw [List.mem_reverse] at h1
  exact (List.dropWhile_suffix isPySpace).subset h1

theorem strip_ne_nil {c : Char} {l : List Char} (hc : c ∈ l)
    (hs : isPySpace c = false) : strip l ≠ [] := by
  intro h
  unfold strip at h
  rw [List.reverse_eq_nil_iff, List.dropWhile_eq_nil_iff] at h
  have hmem : c ∈ l.dropWhile isPySpace := by
    have := List.takeWhile_append_dropWhile isPySpace l
    rw [← this] at hc
    rcases List.mem_append.mp hc with h1 | h1
    · exact absurd (List.mem_takeWhile_imp h1) (by simp [hs])
    · exact h1
  exact absurd (h c (List.mem_reverse.mpr hmem)) (by simp [hs])

theorem strip_head_not_space {l : List Char} {c : Char} {t : List Char}
    (hs : strip l = c :: t) : isPySpace c = false := by
  obtain ⟨w, hw⟩ := List.dropWhile_suffix (l := (l.dropWhile isPySpace).reverse) isPySpace
  have hA : l.dropWhile isPySpace = c :: (t ++ w.reverse) := by
    have := congrArg List.reverse hw
    rw [List.reverse_append, List.reverse_reverse] at this
    unfold strip at hs
    rw [hs] at this
    simpa using this.symm
  have h2 := List.head_dropWhile_not isPySpace l (by simp [hA])
  simp only [hA, List.head_cons] at h2
  exact h2

theorem strip_idem (l : List Char) : strip (strip l) = strip l := by
  have step1 : (strip l).dropWhile isPySpace = strip l := by
    cases hs : strip l with
    | nil => rfl
    | cons c t => exact List.dropWhile_cons_of_neg (by simp [strip_head_not_space hs])
  calc strip (strip l)
      = (((strip l).dropWhile isPySpace).reverse.dropWhile isPySpace).reverse := rfl
    _ = ((strip l).reverse.dropWhile isPySpace).reverse := by rw [step1]
    _ = ((((l.dropWhile isPySpace).reverse.dropWhile isPySpace).reverse).reverse.dropWhile
          isPySpace).reverse := rfl
    _ = (((l.dropWhile isPySpace).reverse.dropWhile isPySpace).dropWhile isPySpace).reverse := by
          rw [List.reverse_reverse]
    _ = ((l.dropWhile isPySpace).reverse.dropWhile isPySpace).reverse := by
          rw [dropWhile_dropWhile]
    _ = strip l := rfl

/-! ### Helper lemmas about the pattern searches -/

theorem afterLit_append (p r : List Char) : afterLit p (p ++ r) = some r := by
  induction p with
  | nil => rfl
  | cons c t ih => simp [afterLit, ih]

theorem afterLit_ne_head {c d : Char} {p s : List Char} (h : c ≠ d) :
    afterLit (c :: p) (d :: s) = none := by
  simp [afterLit, h]

theorem pauseAt_digits {s d rest : List Char}
    (hp : pauseAt s = some (d, rest)) : d ≠ [] ∧ d.all Char.isDigit = true := by
  unfold pauseAt at hp
  split at hp
  · exact absurd hp (by simp)
  · dsimp only at hp
    split at hp
    · exact absurd hp (by simp)
    · split at hp
      · simp only [Option.some.injEq, Prod.mk.injEq] at hp
        obtain ⟨h1, -⟩ := hp
        subst h1
        exact ⟨by assumption, List.all_eq_true.mpr fun x hx => List.mem_takeWhile_imp hx⟩
      · exact absurd hp (by simp)

theorem searchPause_digits {s d rest : List Char}
    (h : searchPause s = some (d, rest)) : d ≠ [] ∧ d.all Char.isDigit = true := by
  induction s with
  | nil => simp [searchPause] at h
  | cons c t ih =>
    rw [searchPause] at h
    rcases hp : pauseAt (c :: t) with _ | ⟨d1, r1⟩ <;> rw [hp] at h
    · exact ih h
    · cases h
      exact pauseAt_digits hp

theorem ejercicioAt_digits {s d : List Char}
    (hp : ejercicioAt s = some d) : d ≠ [] ∧ d.all Char.isDigit = true := by
  unfold ejercicioAt at hp
  split at hp
  · exact absurd hp (by simp)
  · dsimp only at hp
    split at hp
    · exact absurd hp (by simp)
    · split at hp
      · simp only [Option.some.injEq] at hp
        subst hp
        exact ⟨by assumption, List.all_eq_true.mpr fun x hx => List.mem_takeWhile_imp hx⟩
      · exact absurd hp (by simp)

theorem searchEjercicio_digits {s d : List Char}
    (h : searchEjercicio s = some d) : d ≠ [] ∧ d.all Char.isDigit = true := by
  induction s with
  | nil => simp [searchEjercicio] at h
  | cons c t ih =>
    rw [searchEjercicio] at h
    rcases hp : ejercicioAt (c :: t) with _ | d1 <;> rw [hp] at h
    · exact ih h
    · cases h
      exact ejercicioAt_digits hp

theorem pauseAt_marker (digits after : List Char) (hne : digits ≠ [])
    (hall : digits.all Char.isDigit = true) :
    pauseAt ("[PAUSE:".data ++ (digits ++ (']' :: after))) =
      some (digits, after.takeWhile (· ≠ '\n')) := by
  unfold pauseAt
  rw [afterLit_append]
  have h1 : List.takeWhile Char.isDigit (digits ++ ']' :: after) = digits := by
    rw [List.takeWhile_append_of_pos (by simpa using List.all_eq_true.mp hall)]
    simp [List.takeWhile_cons]
  have h2 : List.dropWhile Char.isDigit (digits ++ ']' :: after) = ']' :: after := by
    rw [List.dropWhile_append_of_pos (by simpa using List.all_eq_true.mp hall)]
    simp [List.dropWhile_cons]
  dsimp only
  rw [h1, h2, if_neg hne]
  rfl

theorem pauseAt_none_of_ne {c : Char} {t : List Char} (h : c ≠ '[') :
    pauseAt (c :: t) = none := by
  unfold pauseAt
  rw [show afterLit "[PAUSE:".data (c :: t) = none from afterLit_ne_head (Ne.symm h)]

theorem searchPause_of_pauseAt {s : List Char} {x : List Char × List Char}
    (h : pauseAt s = some x) : searchPause s = some x := by
  cases s with
  | nil => exact absurd h (by simp [pauseAt, afterLit])
  | cons c t => rw [searchPause, h]

theorem searchPause_append (before digits after : List Char) (hb : '[' ∉ before)
    (hne : digits ≠ []) (hall : digits.all Char.isDigit = true) :
    searchPause (before ++ ("[PAUSE:".data ++ (digits ++ (']' :: after)))) =
      some (digits, after.takeWhile (· ≠ '\n')) := by
  induction before with
  | nil =>
    rw [List.nil_append]
    exact searchPause_of_pauseAt (pauseAt_marker digits after hne hall)
  | cons b bt ih =>
    have hb1 : b ≠ '[' := fun h => hb (h ▸ List.mem_cons_self b bt)
    have hbt : '[' ∉ bt := fun h => hb (List.mem_cons_of_mem b h)
    rw [List.cons_append, searchPause, pauseAt_none_of_ne hb1]
    exact ih hbt

theorem imagenAt_marker (content after : List Char) (hc : content ≠ [])
    (hcr : ']' ∉ content) :
    imagenAt ("[IMAGEN:".data ++ (content ++ (']' :: after))) = some content := by
  unfold imagenAt
  rw [afterLit_append]
  have hpos : ∀ a ∈ content, (fun x => decide (x ≠ ']')) a := by
    intro a ha
    have : a ≠ ']' := fun he => hcr (he ▸ ha)
    simpa using this
  have h1 : List.takeWhile (fun x => decide (x ≠ ']')) (content ++ ']' :: after) = content := by
    rw [List.takeWhile_append_of_pos hpos]
    simp [List.takeWhile_cons]
  have h2 : List.dropWhile (fun x => decide (x ≠ ']')) (content ++ ']' :: after) =
      ']' :: after := by
    rw [List.dropWhile_append_of_pos hpos]
    simp [List.dropWhile_cons]
  dsimp only
  rw [h1, h2, if_neg hc, if_neg (by simp)]

theorem imagenAt_none_of_ne {c : Char} {t : List Char} (h : c ≠ '[') :
    imagenAt (c :: t) = none := by
  unfold imagenAt
  rw [show afterLit "[IMAGEN:".data (c :: t) = none from afterLit_ne_head (Ne.symm h)]

theorem searchImagenAux_append (acc before content after : List Char) (hb : '[' ∉ before)
    (hc : content ≠ []) (hcr : ']' ∉ content) :
    searchImagenAux acc (before ++ ("[IMAGEN:".data ++ (content ++ (']' :: after)))) =
      some (acc.reverse ++ before, content) := by
  induction before generalizing acc with
  | nil =>
    rw [List.nil_append]
    have hcons : "[IMAGEN:".data ++ (content ++ (']' :: after)) =
        '[' :: ("IMAGEN:".data ++ (content ++ (']' :: after))) := rfl
    rw [hcons, searchImagenAux, ← hcons, imagenAt_marker content after hc hcr]
    simp
  | cons b bt ih =>
    have hb1 : b ≠ '[' := fun h => hb (h ▸ List.mem_cons_self b bt)
    have hbt : '[' ∉ bt := fun h => hb (List.mem_cons_of_mem b h)
    rw [List.cons_append, searchImagenAux, imagenAt_none_of_ne hb1, ih (b :: acc) hbt]
    simp

theorem searchImagen_append (before content after : List Char) (hb : '[' ∉ before)
    (hc : content ≠ []) (hcr : ']' ∉ content) :
    searchImagen (before ++ ("[IMAGEN:".data ++ (content ++ (']' :: after)))) =
      some (before, content) := by
  simpa using searchImagenAux_append [] before content after hb hc hcr

/-! ### Helper lemmas about `splitOnSlash` -/

theorem splitOnSlash_ne_nil (l : List Char) : splitOnSlash l ≠ [] := by
  cases l with
  | nil => simp [splitOnSlash]
  | cons c t =>
    unfold splitOnSlash
    by_cases h : c = '/'
    · simp [h]
    · rw [if_neg h]
      rcases hs : splitOnSlash t with _ | ⟨r, rs⟩ <;> simp

theorem noSlash_splitOnSlash {l : List Char} (h : '/' ∉ l) : splitOnSlash l = [l] := by
  induction l with
  | nil => rfl
  | cons c t ih =>
    have hc : c ≠ '/' := fun he => h (he ▸ List.mem_cons_self c t)
    have ht : '/' ∉ t := fun hm => h (List.mem_cons_of_mem c hm)
    unfold splitOnSlash
    rw [if_neg hc, ih ht]

theorem mem_splitOnSlash_no_slash {l p : List Char} (hp : p ∈ splitOnSlash l) :
    '/' ∉ p := by
  induction l generalizing p with
  | nil =>
    simp only [splitOnSlash, List.mem_singleton] at hp
    subst hp
    simp
  | cons c t ih =>
    unfold splitOnSlash at hp
    by_cases h : c = '/'
    · rw [if_pos h] at hp
      rcases List.mem_cons.mp hp with h1 | h1
      · subst h1; simp
      · exact ih h1
    · rw [if_neg h] at hp
      rcases hs : splitOnSlash t with _ | ⟨r, rs⟩
      · exact absurd hs (splitOnSlash_ne_nil t)
      · rw [hs] at hp
        rcases List.mem_cons.mp hp with h1 | h1
        · subst h1
          intro hm
          rcases List.mem_cons.mp hm with h2 | h2
          · exact h h2.symm
          · have hr : r ∈ splitOnSlash t := by rw [hs]; exact List.mem_cons_self r rs
            exact ih hr h2
        · have hpt : p ∈ splitOnSlash t := by rw [hs]; exact List.mem_cons_of_mem r h1
          exact ih hpt

theorem mem_splitOnSlash_subset {l p : List Char} (hp : p ∈ splitOnSlash l) :
    ∀ c ∈ p, c ∈ l := by
  induction l generalizing p with
  | nil =>
    simp only [splitOnSlash, List.mem_singleton] at hp
    subst hp
    simp
  | cons c t ih =>
    unfold splitOnSlash at hp
    by_cases h : c = '/'
    · rw [if_pos h] at hp
      rcases List.mem_cons.mp hp with h1 | h1
      · subst h1; simp
      · exact fun x hx => List.mem_cons_of_mem c (ih h1 x hx)
    · rw [if_neg h] at hp
      rcases hs : splitOnSlash t with _ | ⟨r, rs⟩
      · exact absurd hs (splitOnSlash_ne_nil t)
      · rw [hs] at hp
        rcases List.mem_cons.mp hp with h1 | h1
        · subst h1
          intro x hx
          rcases List.mem_cons.mp hx with h2 | h2
          · exact h2 ▸ List.mem_cons_self c t
          · have hr : r ∈ splitOnSlash t := by rw [hs]; exact List.mem_cons_self r rs
            exact List.mem_cons_of_mem c (ih hr x h2)
        · have hpt : p ∈ splitOnSlash t := by rw [hs]; exact List.mem_cons_of_mem r h1
          exact fun x hx => List.mem_cons_of_mem c (ih hpt x hx)

/-! ### Helper lemmas about `pyInt` and `speak` -/

theorem not_space_of_digit {c : Char} (h : c.isDigit = true) : isPySpace c = false := by
  by_contra hcon
  rw [Bool.not_eq_false] at hcon
  have hcases : c = ' ' ∨ c = '\t' ∨ c = '\n' ∨ c = '\r' ∨ c = '\x0b' ∨ c = '\x0c' := by
    simpa [isPySpace, or_assoc] using hcon
  rcases hcases with h1 | h1 | h1 | h1 | h1 | h1 <;> subst h1 <;> exact absurd h (by decide)

theorem pyInt_digits {d : List Char} (hne : d ≠ []) (hall : d.all Char.isDigit = true) :
    pyInt (String.mk d) = some (Int.ofNat (digitsToNat d)) := by
  have hnospace : ∀ c ∈ d, isPySpace c = false := fun c hc =>
    not_space_of_digit (List.all_eq_true.mp hall c hc)
  have h2 : strip (String.mk d).data = d := strip_of_forall_not_space hnospace
  cases d with
  | nil => exact absurd rfl hne
  | cons c t =>
    have hcd : c.isDigit = true := List.all_eq_true.mp hall c (List.mem_cons_self c t)
    have hplus : c ≠ '+' := fun he => by rw [he] at hcd; exact absurd hcd (by decide)
    have hminus : c ≠ '-' := fun he => by rw [he] at hcd; exact absurd hcd (by decide)
    unfold pyInt
    rw [h2]
    dsimp only
    rw [if_neg hplus, if_neg hminus]
    unfold digitsOnly
    rw [if_pos ⟨by simp, hall⟩]
    rfl

theorem speak_blank {t : String} (h : strip t.data = []) : speak t = [] := by
  unfold speak
  rw [if_pos h]

theorem speak_not_blank {t : String} (h : strip t.data ≠ []) : speak t = [.say t] := by
  unfold speak
  rw [if_neg h]

theorem speak_if_truthy (t : String) : (if t ≠ "" then speak t else []) = speak t := by
  by_cases h : t = ""
  · rw [if_neg (by simp [h]), h]
    exact (@speak_blank "" rfl).symm
  · rw [if_pos h]

theorem say_mem_speak {u t : String} (h : Event.say u ∈ speak t) : strip u.data ≠ [] := by
  unfold speak at h
  split at h
  · exact absurd h (by simp)
  · rw [List.mem_singleton] at h
    cases h
    assumption

theorem esperandoMsg_not_blank (n : Int) : strip (esperandoMsg n).data ≠ [] := by
  have hm : 'E' ∈ (esperandoMsg n).data := by
    rw [show (esperandoMsg n).data =
        "Esperando ".data ++ ((toString n).data ++ " segundos...".data) from rfl]
    exact List.mem_append_left _ (by decide)
  exact strip_ne_nil hm (by decide)

theorem segundosMsg_not_blank (n : Int) : strip (segundosMsg n).data ≠ [] := by
  have hm : 's' ∈ (segundosMsg n).data := by
    rw [show (segundosMsg n).data = (toString n).data ++ " segundos".data from rfl]
    exact List.mem_append_right _ (by decide)
  exact strip_ne_nil hm (by decide)

theorem tiempoMsg_not_blank (m : Nat) : strip (tiempoMsg m).data ≠ [] := by
  have hm : 'H' ∈ (tiempoMsg m).data := by
    rw [show (tiempoMsg m).data = "Han transcurrido ".data ++
        ((toString m).data ++ " minutos desde el inicio de la ejecución".data) from rfl]
    exact List.mem_append_left _ (by decide)
  exact strip_ne_nil hm (by decide)

theorem ejercicioMsg_not_blank (n : String) : strip (ejercicioMsg n).data ≠ [] := by
  have hm : 'E' ∈ (ejercicioMsg n).data := by
    rw [show (ejercicioMsg n).data = ("Ejercicio ".data ++ n.data) ++ [] from rfl]
    exact List.mem_append_left _ (List.mem_append_left _ (by decide))
  exact strip_ne_nil hm (by decide)

theorem speak_esperando (n : Int) : speak (esperandoMsg n) = [.say (esperandoMsg n)] :=
  speak_not_blank (esperandoMsg_not_blank n)

theorem speak_segundos (n : Int) : speak (segundosMsg n) = [.say (segundosMsg n)] :=
  speak_not_blank (segundosMsg_not_blank n)

theorem speak_tiempo (m : Nat) : speak (tiempoMsg m) = [.say (tiempoMsg m)] :=
  speak_not_blank (tiempoMsg_not_blank m)

theorem speak_ejercicio (n : String) : speak (ejercicioMsg n) = [.say (ejercicioMsg n)] :=
  speak_not_blank (ejercicioMsg_not_blank n)

theorem say_mem_processPart {u : String} {e : Nat} {part : String}
    (h : Event.say u ∈ processPart e part) : strip u.data ≠ [] := by
  unfold processPart runDirective at h
  cases hcl : classify part <;> rw [hcl] at h <;> dsimp only at h
  case pause d t =>
    unfold manejar_pausa at h
    rw [speak_if_truthy] at h
    rcases List.mem_append.mp h with h1 | h1
    · exact say_mem_speak h1
    · split at h1
      · rw [speak_segundos] at h1
        simp only [List.mem_append, List.mem_singleton] at h1
        rcases h1 with (h2 | h2) | h2
        · exact absurd h2 (by simp)
        · cases h2
          exact segundosMsg_not_blank _
        · exact absurd h2 (by simp)
      · simp only [List.mem_singleton] at h1
        exact absurd h1 (by simp)
  case image p t =>
    unfold manejar_imagen at h
    rw [speak_if_truthy] at h
    rcases List.mem_append.mp h with h1 | h1
    · exact say_mem_speak h1
    · simp at h1
  case tiempo =>
    unfold sintetizar_tiempo at h
    dsimp only at h
    rcases List.mem_append.mp h with h1 | h1
    · simp at h1
    · exact say_mem_speak h1
  case ejercicio n =>
    unfold manejar_ejercicio at h
    rcases List.mem_append.mp h with h1 | h1
    · simp at h1
    · exact say_mem_speak h1
  case plain t =>
    exact say_mem_speak h

theorem manejar_pausa_digits (digits : List Char) (t : String) (hne : digits ≠ [])
    (hall : digits.all Char.isDigit = true) :
    manejar_pausa (String.mk digits) t =
      speak t ++ [.print (esperandoMsg (Int.ofNat (digitsToNat digits))),
                  .say (segundosMsg (Int.ofNat (digitsToNat digits))),
                  .sleep (Int.ofNat (digitsToNat digits))] := by
  unfold manejar_pausa
  rw [speak_if_truthy, pyInt_digits hne hall]
  dsimp only
  rw [speak_segundos]
  rfl

theorem imagenGroup1_strip (content : List Char) :
    strip (imagenGroup1 content) = strip content := by
  unfold imagenGroup1
  split
  · rename_i h
    have hall : ∀ c ∈ content, isPySpace c = true := List.dropWhile_eq_nil_iff.mp h
    rw [strip_of_forall_space hall]
    exact strip_of_forall_space fun c hc => hall c (List.drop_subset _ content hc)
  · show strip (content.dropWhile isPySpace) = strip content
    unfold strip
    rw [dropWhile_dropWhile]

/-! ### The claims -/

/-- C8: a zero-duration pause `[PAUSE:0]` is handled like any other pause,
not as an error: the handler still prints the `Esperando 0 segundos` notice,
speaks `0 segundos`, and the blocking wait has zero duration. -/
theorem spec_C8_pause_zero (e : Nat) :
    processPart e "[PAUSE:0]" =
      [.print "Esperando 0 segundos...", .say "0 segundos", .sleep 0] := by
  unfold processPart
  rw [show classify "[PAUSE:0]" = Directive.pause "0" "" from by decide]
  show manejar_pausa "0" "" = _
  decide

/-- C10: `speak` is a guarded no-op on blank input (empty or whitespace-only
text never reaches the speech service), and consequently every `say` event
the dispatcher emits carries non-blank text. -/
theorem spec_C10_speak_guard :
    (∀ t : String, strip t.data = [] → speak t = []) ∧
    (∀ (e : Nat) (part u : String), Event.say u ∈ processPart e part →
      strip u.data ≠ []) :=
  ⟨fun _ h => speak_blank h, fun _ _ _ h => say_mem_processPart h⟩

/-- Witness for C10 at concrete inputs: whitespace-only text is dropped, and
the say event of the plain-text segment `hola` is non-blank. -/
theorem spec_C10_witness :
    speak "   " = [] ∧ strip "hola".data ≠ [] := by
  constructor
  · exact spec_C10_speak_guard.1 "   " (by decide)
  · refine spec_C10_speak_guard.2 0 "hola" "hola" ?_
    rw [show processPart 0 "hola" = [Event.say "hola"] from by decide]
    exact List.mem_singleton.mpr rfl

/-- C1: the dispatcher classifies every segment into exactly one of Pause,
Image, ElapsedTimeAnnounce, ExerciseAnnounce or PlainText, checking the
patterns in that fixed precedence order with early exit, and invokes exactly
the handler of that one classification; in particular whenever the pause
pattern matches at all — even if later patterns also match — the pause
handler runs and no other handler is dispatched. -/
theorem spec_C1_dispatch_precedence (e : Nat) (part : String) :
    (∀ d rest, searchPause part.data = some (d, rest) →
      classify part = .pause (String.mk d) (String.mk (strip rest)) ∧
      processPart e part = manejar_pausa (String.mk d) (String.mk (strip rest))) ∧
    (searchPause part.data = none →
      ∀ bef content, searchImagen part.data = some (bef, content) →
        classify part =
          .image (String.mk (strip (imagenGroup1 content))) (String.mk (strip bef)) ∧
        processPart e part =
          manejar_imagen (String.mk (strip (imagenGroup1 content))) (String.mk (strip bef))) ∧
    (searchPause part.data = none → searchImagen part.data = none →
      hasLit "[TIEMPO]".data part.data = true →
      classify part = .tiempo ∧ processPart e part = sintetizar_tiempo e) ∧
    (searchPause part.data = none → searchImagen part.data = none →
      hasLit "[TIEMPO]".data part.data = false →
      ∀ ds, searchEjercicio part.data = some ds →
        classify part = .ejercicio (String.mk (strip ds)) ∧
        processPart e part = manejar_ejercicio (String.mk (strip ds))) ∧
    (searchPause part.data = none → searchImagen part.data = none →
      hasLit "[TIEMPO]".data part.data = false → searchEjercicio part.data = none →
      classify part = .plain part ∧ processPart e part = speak part) := by
  refine ⟨?_, ?_, ?_, ?_, ?_⟩
  · intro d rest hsp
    have hcl : classify part = .pause (String.mk d) (String.mk (strip rest)) := by
      unfold classify
      rw [hsp]
    exact ⟨hcl, by unfold processPart; rw [hcl]; rfl⟩
  · intro hsp bef content hsi
    have hcl : classify part =
        .image (String.mk (strip (imagenGroup1 content))) (String.mk (strip bef)) := by
      unfold classify
      rw [hsp, hsi]
    exact ⟨hcl, by unfold processPart; rw [hcl]; rfl⟩
  · intro hsp hsi ht
    have hcl : classify part = .tiempo := by
      unfold classify
      rw [hsp, hsi, ht]
      rfl
    exact ⟨hcl, by unfold processPart; rw [hcl]; rfl⟩
  · intro hsp hsi ht ds hse
    have hcl : classify part = .ejercicio (String.mk (strip ds)) := by
      unfold classify
      rw [hsp, hsi, ht, hse]
      rfl
    exact ⟨hcl, by unfold processPart; rw [hcl]; rfl⟩
  · intro hsp hsi ht hse
    have hcl : classify part = .plain part := by
      unfold classify
      rw [hsp, hsi, ht, hse]
      rfl
    exact ⟨hcl, by unfold processPart; rw [hcl]; rfl⟩

/-- Witness for C1 at a segment that contains all four directive markers at
once: the pause pattern matches, so the earlier pattern in the precedence
order wins and only the pause handler is dispatched. -/
theorem spec_C1_witness :
    classify "[PAUSE:3] y [IMAGEN:a.png] [TIEMPO] [EJERCICIO:7]" =
      Directive.pause "3" "y [IMAGEN:a.png] [TIEMPO] [EJERCICIO:7]" ∧
    processPart 0 "[PAUSE:3] y [IMAGEN:a.png] [TIEMPO] [EJERCICIO:7]" =
      manejar_pausa "3" "y [IMAGEN:a.png] [TIEMPO] [EJERCICIO:7]" := by
  have h := (spec_C1_dispatch_precedence 0
      "[PAUSE:3] y [IMAGEN:a.png] [TIEMPO] [EJERCICIO:7]").1
    "3".data " y [IMAGEN:a.png] [TIEMPO] [EJERCICIO:7]".data (by decide)
  exact ⟨h.1.trans (by decide), h.2.trans (by decide)⟩

/-- C2: for a segment containing `[PAUSE:<digits>]`, the dispatcher captures
the digits as the duration and the trimmed text after the closing bracket as
the trailing text, discarding any text before the marker; the pause handler
then speaks the trailing text if non-empty, prints the waiting notice, speaks
the `N segundos` notice, and finally sleeps for `N` seconds. -/
theorem spec_C2_pause_capture_order (e : Nat) (before digits after : List Char)
    (hb : '[' ∉ before) (hne : digits ≠ []) (hall : digits.all Char.isDigit = true)
    (hnl : '\n' ∉ after) :
    processPart e (String.mk (before ++ ("[PAUSE:".data ++ (digits ++ (']' :: after))))) =
      speak (String.mk (strip after)) ++
        [.print (esperandoMsg (Int.ofNat (digitsToNat digits))),
         .say (segundosMsg (Int.ofNat (digitsToNat digits))),
         .sleep (Int.ofNat (digitsToNat digits))] := by
  have hsp : searchPause
      (String.mk (before ++ ("[PAUSE:".data ++ (digits ++ (']' :: after))))).data =
      some (digits, after.takeWhile (· ≠ '\n')) :=
    searchPause_append before digits after hb hne hall
  have htw : after.takeWhile (· ≠ '\n') = after :=
    List.takeWhile_eq_self_iff.mpr fun x hx => by
      have : x ≠ '\n' := fun he => hnl (he ▸ hx)
      simpa using this
  rw [htw] at hsp
  have hcl : classify (String.mk (before ++ ("[PAUSE:".data ++ (digits ++ (']' :: after))))) =
      .pause (String.mk digits) (String.mk (strip after)) := by
    unfold classify
    rw [hsp]
  unfold processPart
  rw [hcl]
  show manejar_pausa (String.mk digits) (String.mk (strip after)) = _
  exact manejar_pausa_digits digits (String.mk (strip after)) hne hall

/-- Witness for C2: the segment `x [PAUSE:07] hola` discards the leading
`x `, speaks the trailing `hola`, prints and speaks the 7-second notices
(leading zero removed by integer conversion), and sleeps 7 seconds. -/
theorem spec_C2_witness :
    processPart 0 "x [PAUSE:07] hola" =
      [Event.say "hola", Event.print "Esperando 7 segundos...",
       Event.say "7 segundos", Event.sleep 7] := by
  have h := spec_C2_pause_capture_order 0 "x ".data "07".data " hola".data
    (by decide) (by decide) (by decide) (by decide)
  exact h.trans (by decide)

/-- C3: for a segment containing `[IMAGEN:<path>]` and no pause marker, the
dispatcher captures the trimmed text strictly before the marker as leading
text and the image handler speaks it (if non-empty) before invoking the
viewer on the trimmed path; text after the marker never appears in the
trace, so it is never spoken. -/
theorem spec_C3_image_leading_text (e : Nat) (before content after : List Char)
    (hb : '[' ∉ before) (hc : content ≠ []) (hcr : ']' ∉ content)
    (hp : searchPause (before ++ ("[IMAGEN:".data ++ (content ++ (']' :: after)))) = none) :
    processPart e (String.mk (before ++ ("[IMAGEN:".data ++ (content ++ (']' :: after))))) =
      speak (String.mk (strip before)) ++
        [.print (abriendoMsg (String.mk (strip content))),
         .openImg (String.mk (strip content))] := by
  have hsi : searchImagen
      (String.mk (before ++ ("[IMAGEN:".data ++ (content ++ (']' :: after))))).data =
      some (before, content) :=
    searchImagen_append before content after hb hc hcr
  have hcl : classify (String.mk (before ++ ("[IMAGEN:".data ++ (content ++ (']' :: after))))) =
      .image (String.mk (strip (imagenGroup1 content))) (String.mk (strip before)) := by
    unfold classify
    rw [show searchPause
        (String.mk (before ++ ("[IMAGEN:".data ++ (content ++ (']' :: after))))).data =
        none from hp, hsi]
  rw [imagenGroup1_strip] at hcl
  unfold processPart
  rw [hcl]
  show manejar_imagen (String.mk (strip content)) (String.mk (strip before)) = _
  unfold manejar_imagen
  rw [speak_if_truthy]

/-- Witness for C3: `mira esto [IMAGEN: foto.png] tail` speaks the leading
text, then opens the trimmed path; the trailing ` tail` is discarded. -/
theorem spec_C3_witness :
    processPart 0 "mira esto [IMAGEN: foto.png] tail" =
      [Event.say "mira esto", Event.print "Abriendo la imagen foto.png...",
       Event.openImg "foto.png"] := by
  have h := spec_C3_image_leading_text 0 "mira esto ".data " foto.png".data " tail".data
    (by decide) (by decide) (by decide) (by decide)
  exact h.trans (by decide)

/-- C4: the elapsed-time handler announces `floor(elapsed / 60)` minutes in
the fixed template, printing and speaking the same message, for any reading
at or after the session start; with non-decreasing clock readings the
announced minute count is monotonically non-decreasing; and a `[TIEMPO]`
segment dispatches exactly this handler. -/
theorem spec_C4_tiempo_monotone (startT now1 now2 : Nat) (hge : startT ≤ now1)
    (h12 : now1 ≤ now2) :
    sintetizar_tiempo (now1 - startT) =
      [.print (tiempoMsg ((now1 - startT) / 60)), .say (tiempoMsg ((now1 - startT) / 60))] ∧
    (now1 - startT) / 60 ≤ (now2 - startT) / 60 ∧
    processPart (now1 - startT) "[TIEMPO]" = sintetizar_tiempo (now1 - startT) := by
  refine ⟨?_, ?_, ?_⟩
  · unfold sintetizar_tiempo
    dsimp only
    rw [speak_tiempo]
    rfl
  · exact Nat.div_le_div_right (Nat.sub_le_sub_right h12 startT)
  · have hcl : classify "[TIEMPO]" = .tiempo := by decide
    unfold processPart
    rw [hcl]
    rfl

/-- Witness for C4 at start 0 and readings 61 and 130: one minute is
announced at 61 s, and the count at 130 s is no smaller. -/
theorem spec_C4_witness :
    sintetizar_tiempo 61 =
      [Event.print "Han transcurrido 1 minutos desde el inicio de la ejecución",
       Event.say "Han transcurrido 1 minutos desde el inicio de la ejecución"] ∧
    61 / 60 ≤ 130 / 60 ∧
    processPart 61 "[TIEMPO]" = sintetizar_tiempo 61 := by
  have h := spec_C4_tiempo_monotone 0 61 130 (by decide) (by decide)
  exact ⟨h.1.trans (by decide), h.2.1, h.2.2⟩

/-- C5: segmentation (split on `/`, trim, discard empties) is idempotent:
every produced segment contains no `/` and re-segmenting it yields exactly
that one segment; a blank line yields no segments. -/
theorem spec_C5_segment_idempotent (L : List Char) :
    (∀ seg ∈ segments L, '/' ∉ seg ∧ segments seg = [seg]) ∧
    ((∀ c ∈ L, isPySpace c = true) → segments L = []) := by
  constructor
  · intro seg hseg
    have hmem : ∃ p ∈ splitOnSlash L, strip p = seg ∧ seg ≠ [] := by
      unfold segments at hseg
      rw [List.mem_filter] at hseg
      obtain ⟨h1, h2⟩ := hseg
      rw [List.mem_map] at h1
      obtain ⟨p, hp1, hp2⟩ := h1
      exact ⟨p, hp1, hp2, by simpa using h2⟩
    obtain ⟨p, hp, hstrip, hne⟩ := hmem
    have hnos : '/' ∉ seg := fun hm =>
      mem_splitOnSlash_no_slash hp (mem_of_mem_strip (hstrip ▸ hm))
    refine ⟨hnos, ?_⟩
    unfold segments
    rw [noSlash_splitOnSlash hnos,
        show List.map strip [seg] = [strip seg] from rfl,
        ← hstrip, strip_idem, hstrip]
    simp [hne]
  · intro hsp
    unfold segments
    rw [List.filter_eq_nil_iff]
    intro a ha
    rw [List.mem_map] at ha
    obtain ⟨p, hp, rfl⟩ := ha
    have hps : ∀ c ∈ p, isPySpace c = true := fun c hc =>
      hsp c (mem_splitOnSlash_subset hp c hc)
    simp [strip_of_forall_space hps]

/-- Witness for C5: the segment `a` of the line `a / b` contains no slash
and re-segments to itself, and the blank line `  ` yields no segments. -/
theorem spec_C5_witness :
    ('/' ∉ "a".data ∧ segments "a".data = ["a".data]) ∧ segments "  ".data = [] := by
  constructor
  · exact (spec_C5_segment_idempotent "a / b".data).1 "a".data (by decide)
  · exact (spec_C5_segment_idempotent "  ".data).2 (by decide)

/-- C6: every duration string the pause pattern produces is a nonempty digit
run, so Python `int()` succeeds on it and the invalid-duration error branch
is unreachable from the dispatcher; were the handler called with a
non-numeric string, it would only print the error for that segment, and the
per-segment loop continues with the remaining segments either way. -/
theorem spec_C6_pause_error_unreachable (t bad : String) :
    (∀ s d rest, searchPause s = some (d, rest) →
      d ≠ [] ∧ d.all Char.isDigit = true ∧
      pyInt (String.mk d) = some (Int.ofNat (digitsToNat d)) ∧
      manejar_pausa (String.mk d) t =
        speak t ++ [.print (esperandoMsg (Int.ofNat (digitsToNat d))),
                    .say (segundosMsg (Int.ofNat (digitsToNat d))),
                    .sleep (Int.ofNat (digitsToNat d))]) ∧
    (pyInt bad = none →
      manejar_pausa bad t = speak t ++ [.print (errorPausaMsg bad)]) ∧
    (∀ (tc : Nat) (p : List Char) (ps : List (List Char)), strip p ≠ [] →
      processParts tc (p :: ps) =
        (processPart tc (String.mk (strip p)) ++
          (processParts (tc + sleepTime (processPart tc (String.mk (strip p)))) ps).1,
         (processParts (tc + sleepTime (processPart tc (String.mk (strip p)))) ps).2)) := by
  refine ⟨?_, ?_, ?_⟩
  · intro s d rest hs
    obtain ⟨hne, hall⟩ := searchPause_digits hs
    exact ⟨hne, hall, pyInt_digits hne hall, manejar_pausa_digits d t hne hall⟩
  · intro hnone
    unfold manejar_pausa
    rw [speak_if_truthy, hnone]
  · intro tc p ps hne
    rcases hpp : processParts (tc + sleepTime (processPart tc (String.mk (strip p)))) ps
      with ⟨a, b⟩
    simp only [processParts, if_neg hne, hpp]

/-- Witness for C6: the pattern-produced duration `12` converts successfully
and runs the normal pause trace, while a hypothetical non-numeric duration
`abc` only prints the error message. -/
theorem spec_C6_witness :
    pyInt "12" = some 12 ∧
    manejar_pausa "12" "x" =
      [Event.say "x", Event.print "Esperando 12 segundos...",
       Event.say "12 segundos", Event.sleep 12] ∧
    manejar_pausa "abc" "x" =
      [Event.say "x", Event.print "Error: Duración de pausa inválida \x27abc\x27"] := by
  have h1 := (spec_C6_pause_error_unreachable "x" "abc").1
    "[PAUSE:12]y".data "12".data "y".data (by decide)
  have h2 := (spec_C6_pause_error_unreachable "x" "abc").2.1 (by decide)
  exact ⟨h1.2.2.1.trans (by decide), h1.2.2.2.trans (by decide), h2.trans (by decide)⟩

/-- C7: for a segment matching the exercise pattern and none of the
higher-precedence patterns, the captured digit string is kept as text and
re-spoken verbatim inside the fixed exercise template, with no numeric
coercion. -/
theorem spec_C7_ejercicio_verbatim (e : Nat) (part : String) (ds : List Char)
    (hp : searchPause part.data = none) (hi : searchImagen part.data = none)
    (ht : hasLit "[TIEMPO]".data part.data = false)
    (he : searchEjercicio part.data = some ds) :
    ds ≠ [] ∧ ds.all Char.isDigit = true ∧
    processPart e part =
      [.print (ejercicioMsg (String.mk ds)), .say (ejercicioMsg (String.mk ds))] := by
  obtain ⟨hne, hall⟩ := searchEjercicio_digits he
  have hstrip : strip ds = ds :=
    strip_of_forall_not_space fun c hc => not_space_of_digit (List.all_eq_true.mp hall c hc)
  have hcl : classify part = .ejercicio (String.mk (strip ds)) := by
    unfold classify
    rw [hp, hi, ht, he]
    rfl
  rw [hstrip] at hcl
  refine ⟨hne, hall, ?_⟩
  unfold processPart
  rw [hcl]
  show manejar_ejercicio (String.mk ds) = _
  unfold manejar_ejercicio
  rw [speak_ejercicio]
  rfl

/-- Witness for C7: `[EJERCICIO:012]` is announced exactly as
`Ejercicio 012`, the leading zero preserved. -/
theorem spec_C7_witness :
    processPart 0 "[EJERCICIO:012]" =
      [Event.print "Ejercicio 012", Event.say "Ejercicio 012"] := by
  have h := spec_C7_ejercicio_verbatim 0 "[EJERCICIO:012]" "012".data
    (by decide) (by decide) (by decide) (by decide)
  exact h.2.2.trans (by decide)

/-- C9: when the resolved input file does not exist, `main` reports the
error and returns before opening the file or processing anything: its whole
trace is that single console message, with no speech, viewer or sleep
side effect. -/
theorem spec_C9_missing_file (fs : String → Option (List (List Char)))
    (fname : String) (t0 : Nat) (h : fs fname = none) :
    main fs fname t0 = [.print (errorArchivoMsg fname)] ∧
    ∀ ev ∈ main fs fname t0, ∀ u : String,
      ev ≠ .say u ∧ ev ≠ .openImg u ∧ ∀ n : Int, ev ≠ .sleep n := by
  have hm : main fs fname t0 = [.print (errorArchivoMsg fname)] := by
    unfold main
    rw [h]
  refine ⟨hm, ?_⟩
  intro ev hev u
  rw [hm, List.mem_singleton] at hev
  subst hev
  exact ⟨by simp, by simp, fun n => by simp⟩

/-- Witness for C9: a filesystem without the requested file produces exactly
the file-not-found message. -/
theorem spec_C9_witness :
    main (fun _ => none) "rutina.txt" 0 =
      [Event.print
        "Error: El archivo de entrada \x27rutina.txt\x27 no fue encontrado al intentar procesarlo."] := by
  have h := spec_C9_missing_file (fun _ => none) "rutina.txt" 0 rfl
  exact h.1.trans (by decide)

end Habla
